import Mathlib

/-!
Verification development for the sunpy attribute-algebra core
(`sunpy/net/attr.py` and `sunpy/net/vso/attrs.py`).

The Python classes are embedded as one inductive family `Attr`:

* `Attr.dummy`   — `DummyAttr`
* `Attr.and`     — `AttrAnd` (ordered children)
* `Attr.or`      — `AttrOr` (ordered children)
* `Attr.value`   — `ValueAttr` (dict from compound key tuples to values)
* `Attr.simple`  — the `_VSOSimpleAttr` subclasses (`Provider`, `Source`,
  `Instrument`, `Physobs`, `Pixels`, `Level`, `Resolution`, `Detector`,
  `Filter`, `Sample`, `Quicklook`, `PScale`), tagged by `SimpleKind`
* `Attr.wave`    — `Wave`; after `__init__` the bounds are sorted values in
  Angstrom and `unit` is the constant string `"Angstrom"`, so only the two
  bounds are carried
* `Attr.time`    — `Time`; `start`/`end` are carried as already-parsed
  timestamps (integers), `near` as an optional parsed timestamp (the
  external `parse_time` collaborator is out of scope per the spec)
* `Attr.extent`  — `Extent`

Children lists use a mutually inductive `AttrList` so that tree-recursive
functions can be compiled by (mutual) structural recursion.

Python exceptions are modelled with `Option`/explicit result types: `none`
means the call raises (for the operators: `TypeError`), and the
`NotImplemented` value returned by a dunder method is the `DRes.notImpl`
constructor.
-/

/-- The concrete `_VSOSimpleAttr` subclasses, each a scalar leaf class. -/
inductive SimpleKind where
  | provider
  | source
  | instrument
  | physobs
  | pixels
  | level
  | resolution
  | detector
  | filterK
  | sample
  | quicklook
  | pscale
deriving DecidableEq, Repr

/-- `x.__class__.__name__.lower()` for a `_VSOSimpleAttr` subclass. -/
def simpleName : SimpleKind → String
  | .provider => "provider"
  | .source => "source"
  | .instrument => "instrument"
  | .physobs => "physobs"
  | .pixels => "pixels"
  | .level => "level"
  | .resolution => "resolution"
  | .detector => "detector"
  | .filterK => "filter"
  | .sample => "sample"
  | .quicklook => "quicklook"
  | .pscale => "pscale"

/-- Primitive values stored in a `ValueAttr` dict and in query blocks:
strings, numbers (rationals stand in for Python numbers) and `None`. -/
inductive PrimVal where
  | str (s : String)
  | num (q : ℚ)
  | null
deriving DecidableEq, Repr

/-- A `ValueAttr` dict: compound key (tuple of field names) to value.
Python dict semantics with the keys pairwise distinct by construction. -/
abbrev VDict := List (List String × PrimVal)

mutual

/-- A node of the predicate tree: the `Attr` class family of
`sunpy/net/attr.py` plus the concrete VSO leaves of
`sunpy/net/vso/attrs.py`. -/
inductive Attr where
  | dummy
  | and (attrs : AttrList)
  | or (attrs : AttrList)
  | value (attrs : VDict)
  | simple (k : SimpleKind) (v : String)
  | wave (min max : ℚ)
  | time (start stop : Int) (near : Option Int)
  | extent (x y width length : ℚ) (etype : String)

/-- An ordered list of child attributes (`self.attrs` of `AttrAnd`/`AttrOr`). -/
inductive AttrList where
  | nil
  | cons (head : Attr) (tail : AttrList)

end

namespace AttrList

/-- List concatenation on child lists (`self.attrs + other.attrs`). -/
def app : AttrList → AttrList → AttrList
  | .nil, l => l
  | .cons x t, l => .cons x (app t l)

/-- Plain membership of a node in a child list. -/
def Mem (a : Attr) : AttrList → Prop
  | .nil => False
  | .cons x t => a = x ∨ Mem a t

end AttrList

/-- `collides` as dispatched on the runtime type of the receiver.
`some b` is a returned boolean; `none` means the call raises.
`AttrAnd.collides` and `AttrOr.collides` iterate over `self` (not
`self.attrs`); `Attr` instances are not iterable, so both raise
`TypeError` unconditionally.  Leaf `collides` is an `isinstance` test
against the receiver's own class; `ValueAttr.collides` is a key-overlap
test against another `ValueAttr`. -/
def collides (a b : Attr) : Option Bool :=
  match a with
  | .dummy => some false
  | .and _ => none
  | .or _ => none
  | .value d =>
    match b with
    | .value e => some (d.any fun kv => e.any fun kw => kv.1 = kw.1)
    | _ => some false
  | .simple k _ =>
    match b with
    | .simple k2 _ => some (decide (k = k2))
    | _ => some false
  | .wave _ _ =>
    match b with
    | .wave _ _ => some true
    | _ => some false
  | .time _ _ _ =>
    match b with
    | .time _ _ _ => some true
    | _ => some false
  | .extent _ _ _ _ _ =>
    match b with
    | .extent _ _ _ _ _ => some true
    | _ => some false

/-- Lookup in a `ValueAttr` dict. -/
def dictLookup (d : VDict) (k : List String) : Option PrimVal :=
  match d with
  | [] => none
  | kv :: rest => if kv.1 = k then some kv.2 else dictLookup rest k

/-- Python dict equality for `ValueAttr` dicts: both dicts agree on
lookups of each other's keys (keys are unique by construction). -/
def dictEqB (d e : VDict) : Bool :=
  (d.all fun kv => dictLookup e kv.1 == some kv.2) &&
  (e.all fun kv => dictLookup d kv.1 == some kv.2)

mutual

/-- Python `==` on attribute nodes, as dispatched by the class hierarchy:
`DummyAttr.__eq__` is an `isinstance` test; `AttrAnd.__eq__` and
`AttrOr.__eq__` require the same class and compare children as sets;
`ValueAttr.__eq__` requires the same class and compares dicts; every
other class uses `Attr.__eq__`, which compares the `vars()` dicts of the
two objects and never consults the concrete type (so two scalar leaves
of different classes with the same `value` field compare equal). -/
def pyEq (a b : Attr) : Bool :=
  match a, b with
  | .dummy, .dummy => true
  | .and xs, .and ys => pyAllMem xs ys && pyAllMemRev xs ys
  | .or xs, .or ys => pyAllMem xs ys && pyAllMemRev xs ys
  | .value d, .value e => dictEqB d e
  | .simple _ v, .simple _ w => decide (v = w)
  | .wave m1 mx1, .wave m2 mx2 => decide (m1 = m2) && decide (mx1 = mx2)
  | .time s1 e1 n1, .time s2 e2 n2 =>
    decide (s1 = s2) && decide (e1 = e2) && decide (n1 = n2)
  | .extent x1 y1 w1 l1 t1, .extent x2 y2 w2 l2 t2 =>
    decide (x1 = x2) && decide (y1 = y2) && decide (w1 = w2) &&
      decide (l1 = l2) && decide (t1 = t2)
  | _, _ => false
termination_by sizeOf a + sizeOf b
decreasing_by all_goals (simp_wf; try omega)

/-- `∃ y ∈ l, a == y` — membership of `a` in the set of `l`. -/
def pyMemOf (a : Attr) (l : AttrList) : Bool :=
  match l with
  | .nil => false
  | .cons y t => pyEq a y || pyMemOf a t
termination_by sizeOf a + sizeOf l
decreasing_by all_goals (simp_wf; try omega)

/-- Every element of `l` is `==`-equal to some element of `big`. -/
def pyAllMem (l big : AttrList) : Bool :=
  match l with
  | .nil => true
  | .cons x t => pyMemOf x big && pyAllMem t big
termination_by sizeOf l + sizeOf big
decreasing_by all_goals (simp_wf; try omega)

/-- `∃ x ∈ l, x == b`. -/
def pyMemRev (l : AttrList) (b : Attr) : Bool :=
  match l with
  | .nil => false
  | .cons x t => pyEq x b || pyMemRev t b
termination_by sizeOf l + sizeOf b
decreasing_by all_goals (simp_wf; try omega)

/-- Every element of `big` has some `==`-equal element in `l`. -/
def pyAllMemRev (l big : AttrList) : Bool :=
  match big with
  | .nil => true
  | .cons y t => pyMemRev l y && pyAllMemRev l t
termination_by sizeOf l + sizeOf big
decreasing_by all_goals (simp_wf; try omega)

end

/-- Result of a dunder call such as `__and__`: a returned attribute, the
`NotImplemented` sentinel, or a raised exception. -/
inductive DRes where
  | ok (a : Attr)
  | notImpl
  | err

/-- The branch list an operand contributes under `AttrOr.__or__`:
an `AttrOr` is spliced (`self.attrs + other.attrs`), anything else is
appended as a single branch. -/
def orFlat (r : Attr) : AttrList :=
  match r with
  | .or ys => ys
  | _ => .cons r .nil

/-- The full Python `|` operator.  `DummyAttr.__or__` returns the other
operand; `AttrOr.__or__` concatenates; `Attr.__or__` returns `self`
unchanged when `self == other` (idempotence optimization) and otherwise a
two-branch `AttrOr`.  No class ever returns `NotImplemented` or raises
here, so the reflected operand is never consulted. -/
def fullOr (a b : Attr) : Attr :=
  match a with
  | .dummy => b
  | .or xs => .or (xs.app (orFlat b))
  | _ => if pyEq a b then a else .or (.cons a (.cons b .nil))

/-- `any(b.collides(elem) for elem in l)` — the conflict scan performed
by `AttrAnd.__and__` over its own children against the new operand `b`.
Lazily short-circuits on the first `True`; `none` when a `collides` call
raises first. -/
def collidesCheck (l : AttrList) (b : Attr) : Option Bool :=
  match l with
  | .nil => some false
  | .cons x t =>
    match collides b x with
    | none => none
    | some true => some true
    | some false => collidesCheck t b

mutual

/-- `AttrOr([elem & b for elem in l])` body: combines every element of
`l` with `b` using the full `&` operator, propagating a raised
`TypeError` (`none`). -/
def mapFullAnd (l : AttrList) (b : Attr) : Option AttrList :=
  match l with
  | .nil => some .nil
  | .cons x t =>
    match fullAnd x b with
    | none => none
    | some r =>
      match mapFullAnd t b with
      | none => none
      | some rs => some (.cons r rs)
termination_by 3 * (sizeOf l + sizeOf b)
decreasing_by all_goals (simp_wf; try omega)

/-- The `__and__` method dispatched on the class of `a`:
`DummyAttr.__and__` returns the other operand; `AttrAnd.__and__` first
scans `collides` (which raises whenever the new operand is itself a
compound node, because compound `collides` iterates a non-iterable),
then either concatenates another `AttrAnd`, distributes over an
`AttrOr`, or appends a leaf; `AttrOr.__and__` distributes over its own
branches; `Attr.__and__` (leaves and `ValueAttr`) distributes over an
`AttrOr` operand, signals `NotImplemented` on collision, and otherwise
pairs the two operands in a fresh `AttrAnd` without flattening. -/
def dunderAnd (a b : Attr) : DRes :=
  match a with
  | .dummy => .ok b
  | .and xs =>
    match collidesCheck xs b with
    | none => .err
    | some true => .notImpl
    | some false =>
      match b with
      | .and ys => .ok (.and (xs.app ys))
      | .or ys =>
        match mapFullAnd ys (.and xs) with
        | none => .err
        | some rs => .ok (.or rs)
      | _ => .ok (.and (xs.app (.cons b .nil)))
  | .or xs =>
    match mapFullAnd xs b with
    | none => .err
    | some rs => .ok (.or rs)
  | x =>
    match b with
    | .or ys =>
      match mapFullAnd ys x with
      | none => .err
      | some rs => .ok (.or rs)
    | _ =>
      match collides x b with
      | none => .err
      | some true => .notImpl
      | some false => .ok (.and (.cons x (.cons b .nil)))
termination_by 3 * (sizeOf a + sizeOf b) + 1
decreasing_by all_goals (simp_wf; try omega)

/-- The full Python `&` operator: try `a.__and__(b)`; on
`NotImplemented`, fall back to the reflected `__rand__`, which only
`AttrAnd` and `AttrOr` define (both alias it to their `__and__`); if
that also fails, the interpreter raises `TypeError` (`none`).  A raised
exception propagates without trying the reflected operand. -/
def fullAnd (a b : Attr) : Option Attr :=
  match dunderAnd a b with
  | .ok r => some r
  | .err => none
  | .notImpl =>
    match b with
    | .and ys =>
      match dunderAnd (.and ys) a with
      | .ok r => some r
      | _ => none
    | .or ys =>
      match dunderAnd (.or ys) a with
      | .ok r => some r
      | _ => none
    | _ => none
termination_by 3 * (sizeOf a + sizeOf b) + 2
decreasing_by all_goals (simp_wf; try omega)

end

/-- Modelled from the spec: the external unit-conversion collaborator
`to_angstrom(value, unit)` (from `sunpy.util.util`, outside this core).
The spec fixes `to_canonical_unit(value, unit) -> float` with Angstrom as
the canonical unit; `Wave(1, 2, 'nm')` must convert to 10 and 20
Angstrom, so nanometres carry factor 10 and Angstrom factor 1.  An
unknown unit is a failed conversion (`none`). -/
def toAngstrom (q : ℚ) (unit : String) : Option ℚ :=
  if unit = "Angstrom" then some q
  else if unit = "nm" then some (10 * q)
  else none

/-- `Wave.__init__(wavemin, wavemax, waveunit)`: both bounds are
converted to Angstrom and sorted, and the stored unit is always the
string `"Angstrom"` (so the node carries only the two bounds). -/
def mkWaveU (wavemin wavemax : ℚ) (unit : String) : Option Attr :=
  match toAngstrom wavemin unit, toAngstrom wavemax unit with
  | some a, some b => some (if a ≤ b then .wave a b else .wave b a)
  | _, _ => none

/-- `Wave` as invoked by `_Range.__xor__` through `self.create` with two
arguments: the default unit is Angstrom (identity conversion), so only
the sorting of the two bounds remains. -/
def mkWaveQ (a b : ℚ) : Attr :=
  if a ≤ b then .wave a b else .wave b a

/-- `_Range.__xor__` for `Wave` operands, after the `isinstance` guard:
starts from `DummyAttr()`, ORs in `create(self.min, min(other.min,
self.max))` when `self.min < other.min`, then ORs in `create(other.max,
self.max)` when `other.max < self.max`. -/
def waveXor (m mx m2 mx2 : ℚ) : Attr :=
  let acc0 : Attr := .dummy
  let acc1 := if m < m2 then fullOr acc0 (mkWaveQ m (min m2 mx)) else acc0
  if mx2 < mx then fullOr acc1 (mkWaveQ mx2 mx) else acc1

/-- `Time` as invoked through `self.create` with two arguments inside
`_Range.__xor__`: `Time(start, end)` stores the two (already parsed)
endpoints unsorted with `near = None`. -/
def mkTimeN (a b : Int) : Attr :=
  .time a b none

/-- `_Range.__xor__` for `Time` operands (reached only when neither
operand carries a `near` hint): same interval arithmetic as for `Wave`,
over parsed timestamps, with `min = start` and `max = end`. -/
def timeXor (s e s2 e2 : Int) : Attr :=
  let acc0 : Attr := .dummy
  let acc1 := if s < s2 then fullOr acc0 (mkTimeN s (min s2 e)) else acc0
  if e2 < e then fullOr acc1 (mkTimeN e2 e) else acc1

mutual

/-- The full Python `^` operator.  `AttrOr.__xor__` folds over its
branches, OR-ing each branch's `elem ^ other` into an accumulator that
starts as `AttrOr([])` and silently skipping branches that raise
`TypeError`.  `Wave` inherits `_Range.__xor__`, which returns
`NotImplemented` for a non-`Wave` operand (no class defines `__rxor__`,
so the interpreter then raises, modelled as `none`).  `Time.__xor__`
raises for a non-`Time` operand or when either operand has a `near`
hint.  Every other class lacks `__xor__` entirely, so `^` raises. -/
def xorOp (a b : Attr) : Option Attr :=
  match a with
  | .or xs => some (xorFold xs b (.or .nil))
  | .wave m mx =>
    match b with
    | .wave m2 mx2 => some (waveXor m mx m2 mx2)
    | _ => none
  | .time s e n =>
    match b with
    | .time s2 e2 n2 =>
      if n.isSome || n2.isSome then none else some (timeXor s e s2 e2)
    | _ => none
  | _ => none

/-- The loop body of `AttrOr.__xor__`: `new |= elem ^ other` inside
`try/except TypeError: pass`. -/
def xorFold (l : AttrList) (b : Attr) (acc : Attr) : Attr :=
  match l with
  | .nil => acc
  | .cons x t =>
    match xorOp x b with
    | none => xorFold t b acc
    | some r => xorFold t b (fullOr acc r)

end

mutual

/-- Modelled from the spec: the backend query object produced by the
external `api.factory.create('QueryRequestBlock')` collaborator.  The
spec only requires that it can be instantiated empty and that nested
fields can be navigated/allocated and assigned by string key, so it is a
string-keyed tree of primitive values. -/
inductive QB where
  | node (es : QBEntries)
  | leaf (v : PrimVal)

/-- The named entries of a query block. -/
inductive QBEntries where
  | nil
  | cons (key : String) (sub : QB) (rest : QBEntries)

end

/-- A freshly created empty query-request block. -/
def qbEmpty : QB := .node .nil

/-- The entry list of a block (a primitive has none). -/
def qbEntries : QB → QBEntries
  | .node es => es
  | .leaf _ => .nil

/-- Lookup of one key among a block's entries. -/
def qbGetE : QBEntries → String → Option QB
  | .nil, _ => none
  | .cons k sub rest, key => if k = key then some sub else qbGetE rest key

/-- Replace the sub-block at `key`, appending the entry if absent. -/
def qbSetE : QBEntries → String → QB → QBEntries
  | .nil, key, v => .cons key v .nil
  | .cons k sub rest, key, v =>
    if k = key then .cons k v rest else .cons k sub (qbSetE rest key v)

/-- The `ValueAttr` apply rule's inner loop for one dict item: walk all
but the last component of the compound key (`block = block[elem]`,
allocating nested structure per the spec's query-object contract), then
assign the value at the last component (`block[lst] = v`). -/
def setPath (qb : QB) (path : List String) (v : PrimVal) : QB :=
  match path with
  | [] => qb
  | [k] => .node (qbSetE (qbEntries qb) k (.leaf v))
  | k :: k2 :: rest =>
    let sub := (qbGetE (qbEntries qb) k).getD (.node .nil)
    .node (qbSetE (qbEntries qb) k (setPath sub (k2 :: rest) v))

/-- The `ValueAttr` apply rule (`@walker.add_applier(ValueAttr)`):
assign every compound-key/value pair of the dict into the target block. -/
def applyDict (d : VDict) (qb : QB) : QB :=
  d.foldl (fun b kv => setPath b kv.1 kv.2) qb

mutual

/-- Flatten a query block back to its compound-key/value pairs. -/
def qbFlatten : QB → VDict
  | .leaf v => [([], v)]
  | .node es => qbFlattenE es

/-- Flatten the entries of a query block. -/
def qbFlattenE : QBEntries → VDict
  | .nil => []
  | .cons k sub rest =>
    ((qbFlatten sub).map fun p => (k :: p.1, p.2)) ++ qbFlattenE rest

end

/-- Modelled from the spec: `strftime(TIMEFORMAT)` applied to an already
parsed timestamp — the external time-formatting collaborator, kept
abstract as the decimal rendering of the timestamp. -/
def fmtTime (t : Int) : String :=
  toString t

/-- The registered converters (`walker.add_converter(...)`): rewrite a
domain leaf into its canonical `ValueAttr` dict.  `Extent` maps each of
its fields under the `extent` path; `Time` formats start/end/near under
`time`; a `_VSOSimpleAttr` maps its value under the one-component key
named after its class; `Wave` maps its bounds and constant unit under
`wave`.  Other node types have no converter. -/
def convertAttr : Attr → Option VDict
  | .simple k v => some [([simpleName k], .str v)]
  | .wave m mx =>
    some [(["wave", "wavemin"], .num m), (["wave", "wavemax"], .num mx),
      (["wave", "waveunit"], .str "Angstrom")]
  | .time s e n =>
    some [(["time", "start"], .str (fmtTime s)), (["time", "end"], .str (fmtTime e)),
      (["time", "near"], match n with | none => .null | some t => .str (fmtTime t))]
  | .extent x y w l t =>
    some [(["extent", "x"], .num x), (["extent", "y"], .num y),
      (["extent", "width"], .num w), (["extent", "length"], .num l),
      (["extent", "type"], .str t)]
  | _ => none

/-- What a create rule returns: the regular rules return a list of query
blocks; the `DummyAttr` create rule returns a bare block. -/
inductive CreateRet where
  | list (blocks : List QB)
  | single (block : QB)

mutual

/-- The walker's `apply` dispatch: `ValueAttr` assigns its dict into the
target; `AttrAnd` applies every child to the same target; `DummyAttr`
is a no-op; the converter-registered leaves are rewritten to their
`ValueAttr` form and re-dispatched; `AttrOr` has no apply rule, so
dispatching on it is a configuration error (`none`). -/
def applyOp (a : Attr) (qb : QB) : Option QB :=
  match a with
  | .value d => some (applyDict d qb)
  | .and xs => applyAndL xs qb
  | .dummy => some qb
  | .or _ => none
  | x =>
    match convertAttr x with
    | none => none
    | some d => some (applyDict d qb)

/-- The `AttrAnd` apply rule: apply each child in order to the same
target block. -/
def applyAndL (l : AttrList) (qb : QB) : Option QB :=
  match l with
  | .nil => some qb
  | .cons x t =>
    match applyOp x qb with
    | none => none
    | some qb2 => applyAndL t qb2

/-- The walker's `create` dispatch: the `ValueAttr`/`AttrAnd` rule
creates one empty block, applies the node to it and returns it as a
one-element list; the `AttrOr` rule concatenates the lists created by
its children; the `DummyAttr` rule returns a bare empty block (not
wrapped in a list); converter-registered leaves are rewritten to their
`ValueAttr` form first. -/
def createOp (a : Attr) : Option CreateRet :=
  match a with
  | .value d => some (.list [applyDict d qbEmpty])
  | .and xs =>
    match applyAndL xs qbEmpty with
    | none => none
    | some qb => some (.list [qb])
  | .or xs =>
    match createOrL xs with
    | none => none
    | some bs => some (.list bs)
  | .dummy => some (.single qbEmpty)
  | x =>
    match convertAttr x with
    | none => none
    | some d => some (.list [applyDict d qbEmpty])

/-- The `AttrOr` create rule's loop: `blocks.extend(wlk.create(attr))`
for each child.  Extending with anything but a list of blocks (a child
whose create rule returned a bare block) is modelled as a failure. -/
def createOrL (l : AttrList) : Option (List QB) :=
  match l with
  | .nil => some []
  | .cons x t =>
    match createOp x with
    | some (.list bs) =>
      match createOrL t with
      | none => none
      | some rest => some (bs ++ rest)
    | _ => none

end

/-- Modelled from the spec: the units in which a server may report a
record's wavelength bounds, converted by the same external unit
collaborator used at construction time (`to_angstrom`), total on the
known units. -/
inductive WUnit where
  | angstrom
  | nm
deriving DecidableEq, Repr

/-- `to_angstrom` on a server-reported wavelength field. -/
def toAngstromU (q : ℚ) : WUnit → ℚ
  | .angstrom => q
  | .nm => 10 * q

/-- Python `str.lower()`. -/
def lowerS (s : String) : String :=
  String.mk (s.data.map Char.toLower)

/-- Modelled from the spec: a result record returned by the backend, as
consumed by the filter rules — flat scalar fields named after each
scalar attribute class (possibly omitted by the server), wavelength
bounds with their unit, parsed start/end timestamps and an extent type. -/
structure Record where
  simpleFields : List (SimpleKind × String)
  wavemin : ℚ
  wavemax : ℚ
  waveunit : WUnit
  timestart : Int
  timeend : Int
  extenttype : String
deriving DecidableEq, Repr

/-- `getattr(item, attrname)` for a scalar field, `none` when the server
omitted the field (`hasattr` fails). -/
def recordField (r : Record) (k : SimpleKind) : Option String :=
  match r.simpleFields.find? fun kv => kv.1 = k with
  | none => none
  | some kv => some kv.2

/-- The `_VSOSimpleAttr` filter test: keep a record iff it lacks the
field or the field's value equals the attribute's value
case-insensitively. -/
def simpleKeep (k : SimpleKind) (v : String) (r : Record) : Bool :=
  match recordField r k with
  | none => true
  | some w => lowerS w == lowerS v

/-- The `Wave` filter test: `attr.min <= to_angstrom(it.wave.wavemax)`
and `attr.max >= to_angstrom(it.wave.wavemin)` — interval overlap. -/
def waveKeep (m mx : ℚ) (r : Record) : Bool :=
  decide (m ≤ toAngstromU r.wavemax r.waveunit) &&
    decide (mx ≥ toAngstromU r.wavemin r.waveunit)

/-- The `Time` filter test: `attr.min <= it.time.end` and
`attr.max >= it.time.start` over parsed timestamps (`attr.min` is the
start and `attr.max` the end of the `Time` attribute). -/
def timeKeep (s e : Int) (r : Record) : Bool :=
  decide (s ≤ r.timeend) && decide (e ≥ r.timestart)

/-- The `Extent` filter test: case-insensitive equality of the extent
type field. -/
def extentKeep (t : String) (r : Record) : Bool :=
  lowerS r.extenttype == lowerS t

mutual

/-- The `filter_results` multimethod of `sunpy/net/vso/attrs.py`:
`AttrAnd` starts from the candidate set and intersects with each child's
filtering of the running set; `AttrOr` unions each child's filtering of
the original set; `DummyAttr` (and the `Field` leaf) pass through; the
leaf rules keep the matching records.  Plain `ValueAttr` has no
registered rule, so dispatching on it fails (`none`), and the failure
propagates. -/
def filterResults (a : Attr) (s : Finset Record) : Option (Finset Record) :=
  match a with
  | .dummy => some s
  | .value _ => none
  | .and xs => filterAndL xs s
  | .or xs => filterOrL xs s ∅
  | .simple k v => some (s.filter fun r => simpleKeep k v r)
  | .wave m mx => some (s.filter fun r => waveKeep m mx r)
  | .time st en _ => some (s.filter fun r => timeKeep st en r)
  | .extent _ _ _ _ t => some (s.filter fun r => extentKeep t r)

/-- The `AttrAnd` filter loop: `res &= filter_results(elem, res)`. -/
def filterAndL (l : AttrList) (s : Finset Record) : Option (Finset Record) :=
  match l with
  | .nil => some s
  | .cons x t =>
    match filterResults x s with
    | none => none
    | some u => filterAndL t (s ∩ u)

/-- The `AttrOr` filter loop: `res |= filter_results(elem, results)`
against the original candidate set. -/
def filterOrL (l : AttrList) (s acc : Finset Record) : Option (Finset Record) :=
  match l with
  | .nil => some acc
  | .cons x t =>
    match filterResults x s with
    | none => none
    | some u => filterOrL t s (acc ∪ u)

end

mutual

/-- Whether every node of the tree has a registered `filter_results`
rule (failure of the multimethod dispatch is structural). -/
def filterOk : Attr → Bool
  | .dummy => true
  | .value _ => false
  | .and xs => filterOkL xs
  | .or xs => filterOkL xs
  | .simple _ _ => true
  | .wave _ _ => true
  | .time _ _ _ => true
  | .extent _ _ _ _ _ => true

/-- `filterOk` for every element of a child list. -/
def filterOkL : AttrList → Bool
  | .nil => true
  | .cons x t => filterOk x && filterOkL t

end

mutual

/-- The record predicate a tree denotes: conjunction over `AttrAnd`
children, disjunction over `AttrOr` children, the leaf tests at leaves,
vacuously true at pass-through nodes. -/
def predOf : Attr → Record → Bool
  | .dummy, _ => true
  | .value _, _ => true
  | .and xs, r => predAllL xs r
  | .or xs, r => predAnyL xs r
  | .simple k v, r => simpleKeep k v r
  | .wave m mx, r => waveKeep m mx r
  | .time st en _, r => timeKeep st en r
  | .extent _ _ _ _ t, r => extentKeep t r

/-- All children hold of the record. -/
def predAllL : AttrList → Record → Bool
  | .nil, _ => true
  | .cons x t, r => predOf x r && predAllL t r

/-- Some child holds of the record. -/
def predAnyL : AttrList → Record → Bool
  | .nil, _ => false
  | .cons x t, r => predOf x r || predAnyL t r

end

theorem AttrList.app_nil : ∀ l : AttrList, l.app .nil = l
  | .nil => rfl
  | .cons x t => by rw [AttrList.app, AttrList.app_nil]

theorem AttrList.app_assoc : ∀ a b c : AttrList, (a.app b).app c = a.app (b.app c)
  | .nil, _, _ => rfl
  | .cons x t, b, c => by rw [AttrList.app, AttrList.app, AttrList.app, AttrList.app_assoc]

theorem AttrList.sizeOf_lt_of_mem : ∀ {l : AttrList} {a : Attr}, AttrList.Mem a l → sizeOf a < sizeOf l
  | .cons x t, a, h => by
    rcases h with h | h
    · subst h
      simp only [AttrList.cons.sizeOf_spec]
      omega
    · have := AttrList.sizeOf_lt_of_mem h
      simp only [AttrList.cons.sizeOf_spec]
      omega

mutual

/-- Well-formedness of a node as produced by the Python constructors:
every `ValueAttr` dict in the tree has pairwise distinct keys (a Python
dict cannot hold duplicate keys). -/
def wfAttr : Attr → Bool
  | .value d => decide (d.map Prod.fst).Nodup
  | .and xs => wfAttrL xs
  | .or xs => wfAttrL xs
  | _ => true

/-- `wfAttr` for every element of a child list. -/
def wfAttrL : AttrList → Bool
  | .nil => true
  | .cons x t => wfAttr x && wfAttrL t

end

theorem wfAttrL_mem : ∀ {l : AttrList}, wfAttrL l = true → ∀ {a : Attr}, AttrList.Mem a l → wfAttr a = true
  | .cons x t, h, a, hm => by
    rw [wfAttrL, Bool.and_eq_true] at h
    rcases hm with hm | hm
    · subst hm; exact h.1
    · exact wfAttrL_mem h.2 hm

theorem dictLookup_eq_of_mem : ∀ {d : VDict}, (d.map Prod.fst).Nodup →
    ∀ {kv : List String × PrimVal}, kv ∈ d → dictLookup d kv.1 = some kv.2
  | e :: rest, h, kv, hm => by
    rw [List.map_cons, List.nodup_cons] at h
    rcases List.mem_cons.mp hm with hm | hm
    · subst hm
      rw [dictLookup, if_pos rfl]
    · have hne : e.1 ≠ kv.1 := by
        intro heq
        exact h.1 (heq ▸ List.mem_map_of_mem Prod.fst hm)
      rw [dictLookup, if_neg hne]
      exact dictLookup_eq_of_mem h.2 hm

theorem dictEqB_refl {d : VDict} (h : (d.map Prod.fst).Nodup) : dictEqB d d = true := by
  rw [dictEqB, Bool.and_eq_true]
  simp only [List.all_eq_true]
  constructor
  · intro kv hkv
    rw [dictLookup_eq_of_mem h hkv]
    exact beq_self_eq_true _
  · intro kv hkv
    rw [dictLookup_eq_of_mem h hkv]
    exact beq_self_eq_true _

theorem pyMemOf_iff : ∀ (a : Attr) (l : AttrList),
    pyMemOf a l = true ↔ ∃ y, AttrList.Mem y l ∧ pyEq a y = true
  | a, .nil => by
    rw [pyMemOf]
    simp [AttrList.Mem]
  | a, .cons y t => by
    rw [pyMemOf, Bool.or_eq_true, pyMemOf_iff a t]
    constructor
    · rintro (h | ⟨z, hz, he⟩)
      · exact ⟨y, Or.inl rfl, h⟩
      · exact ⟨z, Or.inr hz, he⟩
    · rintro ⟨z, hz | hz, he⟩
      · subst hz; exact Or.inl he
      · exact Or.inr ⟨z, hz, he⟩

theorem pyMemRev_iff : ∀ (l : AttrList) (b : Attr),
    pyMemRev l b = true ↔ ∃ x, AttrList.Mem x l ∧ pyEq x b = true
  | .nil, b => by
    rw [pyMemRev]
    simp [AttrList.Mem]
  | .cons x t, b => by
    rw [pyMemRev, Bool.or_eq_true, pyMemRev_iff t b]
    constructor
    · rintro (h | ⟨z, hz, he⟩)
      · exact ⟨x, Or.inl rfl, h⟩
      · exact ⟨z, Or.inr hz, he⟩
    · rintro ⟨z, hz | hz, he⟩
      · subst hz; exact Or.inl he
      · exact Or.inr ⟨z, hz, he⟩

theorem pyAllMem_iff : ∀ (l big : AttrList),
    pyAllMem l big = true ↔ ∀ x, AttrList.Mem x l → pyMemOf x big = true
  | .nil, big => by
    rw [pyAllMem]
    simp [AttrList.Mem]
  | .cons x t, big => by
    rw [pyAllMem, Bool.and_eq_true, pyAllMem_iff t big]
    constructor
    · rintro ⟨h1, h2⟩ z (hz | hz)
      · subst hz; exact h1
      · exact h2 z hz
    · intro h
      exact ⟨h x (Or.inl rfl), fun z hz => h z (Or.inr hz)⟩

theorem pyAllMemRev_iff : ∀ (l big : AttrList),
    pyAllMemRev l big = true ↔ ∀ y, AttrList.Mem y big → pyMemRev l y = true
  | l, .nil => by
    rw [pyAllMemRev]
    simp [AttrList.Mem]
  | l, .cons y t => by
    rw [pyAllMemRev, Bool.and_eq_true, pyAllMemRev_iff l t]
    constructor
    · rintro ⟨h1, h2⟩ z (hz | hz)
      · subst hz; exact h1
      · exact h2 z hz
    · intro h
      exact ⟨h y (Or.inl rfl), fun z hz => h z (Or.inr hz)⟩

theorem pyEq_refl : ∀ a : Attr, wfAttr a = true → pyEq a a = true
  | .dummy, _ => by rw [pyEq]
  | .and xs, h => by
    rw [wfAttr] at h
    rw [pyEq, Bool.and_eq_true]
    refine ⟨(pyAllMem_iff xs xs).mpr fun x hx => ?_, (pyAllMemRev_iff xs xs).mpr fun y hy => ?_⟩
    · exact (pyMemOf_iff x xs).mpr ⟨x, hx, pyEq_refl x (wfAttrL_mem h hx)⟩
    · exact (pyMemRev_iff xs y).mpr ⟨y, hy, pyEq_refl y (wfAttrL_mem h hy)⟩
  | .or xs, h => by
    rw [wfAttr] at h
    rw [pyEq, Bool.and_eq_true]
    refine ⟨(pyAllMem_iff xs xs).mpr fun x hx => ?_, (pyAllMemRev_iff xs xs).mpr fun y hy => ?_⟩
    · exact (pyMemOf_iff x xs).mpr ⟨x, hx, pyEq_refl x (wfAttrL_mem h hx)⟩
    · exact (pyMemRev_iff xs y).mpr ⟨y, hy, pyEq_refl y (wfAttrL_mem h hy)⟩
  | .value d, h => by
    rw [wfAttr, decide_eq_true_eq] at h
    rw [pyEq]
    exact dictEqB_refl h
  | .simple k v, _ => by rw [pyEq]; simp
  | .wave m mx, _ => by rw [pyEq]; simp
  | .time s e n, _ => by rw [pyEq]; simp
  | .extent x y w l t, _ => by rw [pyEq]; simp
termination_by a => sizeOf a
decreasing_by
  all_goals simp_wf
  all_goals (have h2 := AttrList.sizeOf_lt_of_mem (by assumption); omega)


mutual

theorem filterResults_eq : ∀ (a : Attr) (s : Finset Record),
    filterResults a s = if filterOk a then some (s.filter fun r => predOf a r) else none
  | .dummy, s => by
    rw [filterResults, filterOk]
    simp only [if_true]
    congr 1
    refine (Finset.filter_true_of_mem fun r _ => ?_).symm
    rw [predOf]
  | .value d, s => by
    rw [filterResults, filterOk]
    simp
  | .and xs, s => by
    rw [filterResults, filterOk, filterAndL_eq xs s]
    rcases h : filterOkL xs with _ | _
    · simp
    · simp only [if_true]
      congr 1
  | .or xs, s => by
    rw [filterResults, filterOk, filterOrL_eq xs s ∅]
    rcases h : filterOkL xs with _ | _
    · simp
    · simp only [if_true]
      rw [Finset.empty_union]
      congr 1
  | .simple k v, s => by
    rw [filterResults, filterOk]
    simp only [if_true]
    congr 1
  | .wave m mx, s => by
    rw [filterResults, filterOk]
    simp only [if_true]
    congr 1
  | .time st en n, s => by
    rw [filterResults, filterOk]
    simp only [if_true]
    congr 1
  | .extent x y w l t, s => by
    rw [filterResults, filterOk]
    simp only [if_true]
    congr 1

theorem filterAndL_eq : ∀ (l : AttrList) (s : Finset Record),
    filterAndL l s = if filterOkL l then some (s.filter fun r => predAllL l r) else none
  | .nil, s => by
    rw [filterAndL, filterOkL]
    simp only [if_true]
    congr 1
    refine (Finset.filter_true_of_mem fun r _ => ?_).symm
    rw [predAllL]
  | .cons x t, s => by
    rw [filterAndL, filterResults_eq x s, filterOkL]
    rcases hx : filterOk x with _ | _
    · simp
    · simp only [if_true, Bool.true_and]
      show filterAndL t (s ∩ s.filter fun r => predOf x r) = _
      have hinter : s ∩ (s.filter fun r => predOf x r) = s.filter fun r => predOf x r :=
        Finset.inter_eq_right.mpr (Finset.filter_subset _ s)
      rw [hinter, filterAndL_eq t (s.filter fun r => predOf x r)]
      rcases ht : filterOkL t with _ | _
      · simp
      · simp only [if_true]
        rw [Finset.filter_filter]
        congr 1
        refine Finset.filter_congr fun r _ => ?_
        rw [predAllL]
        simp

theorem filterOrL_eq : ∀ (l : AttrList) (s acc : Finset Record),
    filterOrL l s acc = if filterOkL l then some (acc ∪ s.filter fun r => predAnyL l r) else none
  | .nil, s, acc => by
    rw [filterOrL, filterOkL]
    simp only [if_true]
    congr 1
    have h : (s.filter fun r => predAnyL AttrList.nil r) = ∅ := by
      refine Finset.filter_false_of_mem fun r _ => ?_
      rw [predAnyL]
      simp
    rw [h, Finset.union_empty]
  | .cons x t, s, acc => by
    rw [filterOrL, filterResults_eq x s, filterOkL]
    rcases hx : filterOk x with _ | _
    · simp
    · simp only [if_true, Bool.true_and]
      show filterOrL t s (acc ∪ s.filter fun r => predOf x r) = _
      rw [filterOrL_eq t s (acc ∪ s.filter fun r => predOf x r)]
      rcases ht : filterOkL t with _ | _
      · simp
      · simp only [if_true]
        congr 1
        rw [Finset.union_assoc]
        congr 1
        refine Finset.ext fun r => ?_
        simp only [Finset.mem_union, Finset.mem_filter]
        rw [predAnyL]
        simp only [Bool.or_eq_true]
        tauto

end

/-- The branches collected by `AttrOr.__xor__`: for each child whose
`elem ^ other` succeeds, the branches its result contributes to the
accumulator (spliced if it is an `AttrOr`, appended otherwise); children
whose `^` raises `TypeError` contribute nothing. -/
def xorCollect (l : AttrList) (b : Attr) : AttrList :=
  match l with
  | .nil => .nil
  | .cons x t =>
    match xorOp x b with
    | none => xorCollect t b
    | some r => (orFlat r).app (xorCollect t b)

theorem fullOr_orNode (xs : AttrList) (r : Attr) :
    fullOr (.or xs) r = .or (xs.app (orFlat r)) :=
  rfl

theorem xorFold_append : ∀ (l : AttrList) (b : Attr) (xs : AttrList),
    xorFold l b (.or xs) = .or (xs.app (xorCollect l b))
  | .nil, b, xs => by
    rw [xorFold, xorCollect, AttrList.app_nil]
  | .cons x t, b, xs => by
    rw [xorFold, xorCollect]
    rcases hx : xorOp x b with _ | r
    · exact xorFold_append t b xs
    · show xorFold t b (fullOr (.or xs) r) = .or (xs.app ((orFlat r).app (xorCollect t b)))
      rw [fullOr_orNode, xorFold_append t b (xs.app (orFlat r)), AttrList.app_assoc]

/-- The leaf classes whose `__eq__`/`__hash__` come from the `Attr` base
class via `vars()` (plus `DummyAttr`, which overrides both): every node
class except the compound `AttrAnd`/`AttrOr` and `ValueAttr`. -/
def isDataLeaf : Attr → Bool
  | .dummy => true
  | .simple _ _ => true
  | .wave _ _ => true
  | .time _ _ _ => true
  | .extent _ _ _ _ _ => true
  | _ => false

/-- The classes whose `&` comes from `Attr.__and__` (leaves and
`ValueAttr` — everything except the compound nodes and `DummyAttr`,
which override it). -/
def usesBaseAnd : Attr → Bool
  | .dummy => false
  | .and _ => false
  | .or _ => false
  | _ => true

/-- A value of an instance field, as stored in `vars(self)`. -/
inductive LeafVal where
  | vStr (s : String)
  | vNum (q : ℚ)
  | vInt (i : Int)
  | vOptInt (o : Option Int)
  | vClass (n : String)
deriving DecidableEq, Repr

/-- The `vars()` dict of a leaf instance, as a canonical key-sorted
association list (standing in for `frozenset(vars(self).items())`):
a `_VSOSimpleAttr` carries `value`; `Wave` carries `create` (the class
reference), `max`, `min` and the constant `unit`; `Time` carries
`create`, `end`, `max`, `min`, `near` and `start` (with `min`/`max`
aliasing `start`/`end`); `Extent` carries its five fields.  Compound
nodes and `ValueAttr` are out of scope (`none`). -/
def leafVars : Attr → Option (List (String × LeafVal))
  | .dummy => some []
  | .simple _ v => some [("value", .vStr v)]
  | .wave m mx =>
    some [("create", .vClass "Wave"), ("max", .vNum mx), ("min", .vNum m),
      ("unit", .vStr "Angstrom")]
  | .time s e n =>
    some [("create", .vClass "Time"), ("end", .vInt e), ("max", .vInt e),
      ("min", .vInt s), ("near", .vOptInt n), ("start", .vInt s)]
  | .extent x y w l t =>
    some [("length", .vNum l), ("type", .vStr t), ("width", .vNum w),
      ("x", .vNum x), ("y", .vNum y)]
  | _ => none

/-- What the hash of a leaf is a function of: `DummyAttr.__hash__` is
`hash(None)`; `Attr.__hash__` is `hash(frozenset(vars(self).items()))`,
a pure function of the `vars()` dict, modelled by the dict itself. -/
inductive HashV where
  | hNone
  | hVars (d : List (String × LeafVal))
deriving DecidableEq, Repr

/-- The modelled hash of a leaf node. -/
def pyHashL (a : Attr) : HashV :=
  match a with
  | .dummy => .hNone
  | x =>
    match leafVars x with
    | some d => .hVars d
    | none => .hVars []

/-- A list of `ValueAttr` nodes from their dicts (for feeding the
`AttrOr` create rule). -/
def ofValues : List VDict → AttrList
  | [] => .nil
  | d :: t => .cons (.value d) (ofValues t)

/-- C1: combining a non-empty `AttrAnd` with an `AttrOr` under `&` does
not distribute at all — `AttrAnd.__and__` first evaluates
`any(other.collides(elem) for elem in self.attrs)`, and
`AttrOr.collides` iterates over the non-iterable `AttrOr` instance
itself, so the whole operation raises `TypeError` instead of returning
the claimed flat disjunction of flat conjunctions. -/
theorem c1_and_or_raises : ∀ (x : Attr) (t ys : AttrList),
    fullAnd (.and (.cons x t)) (.or ys) = none := by
  intro x t ys
  rw [fullAnd, dunderAnd, collidesCheck, collides]

/-- C2: `collides` on a conjunction or disjunction node never returns a
boolean — both `AttrAnd.collides` and `AttrOr.collides` iterate over
`self` (not `self.attrs`), which raises `TypeError` — while
`DummyAttr.collides` does return `False` for every operand. -/
theorem c2_compound_collides_raises : ∀ (xs ys : AttrList) (b : Attr),
    collides (.and xs) b = none ∧ collides (.or ys) b = none ∧
      collides .dummy b = some false := by
  intro xs ys b
  exact ⟨rfl, rfl, rfl⟩

/-- C3 counterexample: `Instrument("AIA") == Detector("AIA")` evaluates
to `True` although the two leaves have different concrete types —
`Attr.__eq__` compares only the `vars()` dicts — refuting the claim
that nodes of different concrete types are never equal. -/
theorem c3_cross_type_equality_cex :
    pyEq (.simple .instrument "AIA") (.simple .detector "AIA") = true ∧
      (SimpleKind.instrument == SimpleKind.detector) = false := by
  constructor
  · rw [pyEq]
    simp
  · decide

/-- C3 (amended): for the leaf classes (and `DummyAttr`), `==` holds iff
the two instances have equal `vars()` field dicts — the concrete type is
not consulted, so scalar leaves of different classes with the same value
compare equal — and equal nodes have equal hashes, the hash being a
function of the same field dict (`hash(None)` for `DummyAttr`). -/
theorem c3_leaf_equality_vars_hash : ∀ a b : Attr,
    isDataLeaf a = true → isDataLeaf b = true →
      ((pyEq a b = true ↔ leafVars a = leafVars b) ∧
        (pyEq a b = true → pyHashL a = pyHashL b)) := by
  intro a b ha hb
  have hmain : pyEq a b = true ↔ leafVars a = leafVars b := by
    cases a <;> cases b <;>
      simp_all [isDataLeaf, pyEq, leafVars] <;>
      try tauto
  refine ⟨hmain, fun he => ?_⟩
  have hv : leafVars a = leafVars b := hmain.mp he
  cases a <;> cases b <;> simp_all [isDataLeaf, leafVars, pyHashL]

/-- C3 witness: the amended equivalence applied to the concrete pair
`Instrument("AIA")`, `Detector("AIA")`. -/
theorem c3_leaf_equality_vars_hash_witness :
    (pyEq (.simple .instrument "AIA") (.simple .detector "AIA") = true ↔
        leafVars (.simple .instrument "AIA") = leafVars (.simple .detector "AIA")) ∧
      (pyEq (.simple .instrument "AIA") (.simple .detector "AIA") = true →
        pyHashL (.simple .instrument "AIA") = pyHashL (.simple .detector "AIA")) :=
  c3_leaf_equality_vars_hash (.simple .instrument "AIA") (.simple .detector "AIA") rfl rfl

/-- C4 counterexample: `DummyAttr` is not absorbed on the right —
`Instrument("AIA") & DummyAttr()` goes through `Attr.__and__` and builds
`AttrAnd([Instrument("AIA"), DummyAttr()])`, and
`Instrument("AIA") | DummyAttr()` builds the two-branch `AttrOr`; neither
result compares equal to `Instrument("AIA")`, refuting the claimed
two-sided identity. -/
theorem c4_dummy_right_identity_cex :
    fullAnd (.simple .instrument "AIA") .dummy =
        some (.and (.cons (.simple .instrument "AIA") (.cons .dummy .nil))) ∧
      pyEq (.and (.cons (.simple .instrument "AIA") (.cons .dummy .nil)))
        (.simple .instrument "AIA") = false ∧
      fullOr (.simple .instrument "AIA") .dummy =
        .or (.cons (.simple .instrument "AIA") (.cons .dummy .nil)) ∧
      pyEq (.or (.cons (.simple .instrument "AIA") (.cons .dummy .nil)))
        (.simple .instrument "AIA") = false := by
  refine ⟨?_, ?_, ?_, ?_⟩
  · simp [fullAnd, dunderAnd, collides]
  · simp [pyEq]
  · simp [fullOr, pyEq]
  · simp [pyEq]

/-- C4 (amended): `DummyAttr` is a left identity for both operators:
`DummyAttr() & a` and `DummyAttr() | a` return `a` itself (and hence an
attribute `==`-equal to `a` for every well-formed `a`); absorption on
the right does not hold. -/
theorem c4_dummy_left_identity : ∀ a : Attr, wfAttr a = true →
    fullAnd .dummy a = some a ∧ fullOr .dummy a = a ∧ pyEq a a = true := by
  intro a h
  refine ⟨?_, rfl, pyEq_refl a h⟩
  cases a <;> simp [fullAnd, dunderAnd]

/-- C4 witness: the left-identity law at the concrete leaf
`Instrument("AIA")`. -/
theorem c4_dummy_left_identity_witness :
    fullAnd .dummy (.simple .instrument "AIA") = some (.simple .instrument "AIA") ∧
      fullOr .dummy (.simple .instrument "AIA") = .simple .instrument "AIA" ∧
      pyEq (.simple .instrument "AIA") (.simple .instrument "AIA") = true :=
  c4_dummy_left_identity (.simple .instrument "AIA") rfl

/-- C5: for operands handled by `Attr.__and__` (all leaf classes), a
colliding pair — in particular two scalar leaves of the same concrete
class — makes `__and__` return the unsupported-combination signal
`NotImplemented`, producing no conjunction, while a non-colliding pair —
in particular two scalar leaves of different concrete classes — yields
the flat `AttrAnd` holding exactly the two operands. -/
theorem c5_same_type_conjunction : (∀ a b : Attr,
      usesBaseAnd a = true → usesBaseAnd b = true →
      ((collides a b = some true → dunderAnd a b = .notImpl) ∧
        (collides a b = some false →
          fullAnd a b = some (.and (.cons a (.cons b .nil)))))) ∧
    (∀ (k : SimpleKind) (v w : String),
      collides (.simple k v) (.simple k w) = some true) ∧
    (∀ (k k2 : SimpleKind) (v w : String), k ≠ k2 →
      collides (.simple k v) (.simple k2 w) = some false) := by
  refine ⟨?_, ?_, ?_⟩
  · intro a b ha hb
    constructor
    · intro hcol
      cases a <;> cases b <;> simp_all [usesBaseAnd, dunderAnd]
    · intro hcol
      cases a <;> cases b <;> simp_all [usesBaseAnd, fullAnd, dunderAnd]
  · intro k v w
    simp [collides]
  · intro k k2 v w hne
    simp [collides, hne]

/-- C5 witness: two `Instrument` leaves signal `NotImplemented`; an
`Instrument` and a `Detector` leaf combine into the flat two-element
`AttrAnd`. -/
theorem c5_same_type_conjunction_witness :
    dunderAnd (.simple .instrument "AIA") (.simple .instrument "EIT") = .notImpl ∧
      fullAnd (.simple .instrument "AIA") (.simple .detector "AIA") =
        some (.and (.cons (.simple .instrument "AIA")
          (.cons (.simple .detector "AIA") .nil))) :=
  ⟨(c5_same_type_conjunction.1 (.simple .instrument "AIA") (.simple .instrument "EIT")
        rfl rfl).1
      (c5_same_type_conjunction.2.1 .instrument "AIA" "EIT"),
    (c5_same_type_conjunction.1 (.simple .instrument "AIA") (.simple .detector "AIA")
        rfl rfl).2
      (c5_same_type_conjunction.2.2 .instrument .detector "AIA" "AIA" (by decide))⟩

/-- C6: range `xor` computes the interval set-difference.  With
`A = Wave(1, 10)` and `B = Wave(5, 15)` the result is the or-combination
of exactly the sub-interval from 1 to 5 (a single interval, since only
the left remainder is non-empty); when `A` strictly contains `B` the
result is `AttrOr([Wave(A.min, B.min), Wave(B.max, A.max)])`; and when
`A == B` the result is the identity element `DummyAttr`. -/
theorem c6_range_xor_difference :
    xorOp (.wave 1 10) (.wave 5 15) = some (.wave 1 5) ∧
    (∀ a1 b1 a2 b2 : ℚ, a1 < a2 → b2 < b1 → a2 ≤ b2 →
      xorOp (.wave a1 b1) (.wave a2 b2) =
        some (.or (.cons (.wave a1 a2) (.cons (.wave b2 b1) .nil)))) ∧
    (∀ a b : ℚ, xorOp (.wave a b) (.wave a b) = some .dummy) := by
  refine ⟨rfl, ?_, ?_⟩
  · intro a1 b1 a2 b2 h1 h2 h3
    have hmin : min a2 b1 = a2 := min_eq_left (le_of_lt (lt_of_le_of_lt h3 h2))
    have hne : pyEq (.wave a1 a2) (.wave b2 b1) = false := by
      rw [pyEq]
      have : a1 ≠ b2 := ne_of_lt (lt_of_lt_of_le h1 h3)
      simp [this]
    rw [xorOp, waveXor]
    simp only [if_pos h1, if_pos h2, hmin]
    rw [mkWaveQ, if_pos (le_of_lt h1), mkWaveQ, if_pos (le_of_lt h2)]
    rw [show fullOr .dummy (Attr.wave a1 a2) = .wave a1 a2 from rfl]
    rw [fullOr, hne]
    all_goals simp
  · intro a b
    rw [xorOp, waveXor]
    simp [lt_irrefl]

/-- C6 witness: the strict-containment law applied to `A = Wave(1, 10)`,
`B = Wave(3, 5)`, giving the two complementary remainders. -/
theorem c6_range_xor_difference_witness :
    xorOp (.wave 1 10) (.wave 3 5) =
      some (.or (.cons (.wave 1 3) (.cons (.wave 5 10) .nil))) :=
  c6_range_xor_difference.2.1 1 10 3 5 (by norm_num) (by norm_num) (by norm_num)

/-- C9: `AttrOr.__xor__` is fault-tolerant per branch: for every branch
list and right operand it returns (never raises) the OR-accumulation of
exactly the successful branches' `^` results, each failing branch —
`TypeError` from a cross-kind range `xor`, from a `Time` carrying a
`near` hint, or from a branch without `__xor__` at all — contributing
nothing; illustrated on a disjunction mixing a `Wave` with a `Time` and
a scalar branch, and on one mixing a near-carrying `Time` with a plain
`Time`. -/
theorem c9_or_xor_fault_tolerant :
    (∀ (bs : AttrList) (other : Attr),
      xorOp (.or bs) other = some (.or (xorCollect bs other))) ∧
    xorOp (.or (.cons (.wave 1 10) (.cons (.time 0 5 none)
        (.cons (.simple .instrument "AIA") .nil)))) (.wave 5 15) =
      some (.or (.cons (.wave 1 5) .nil)) ∧
    xorOp (.or (.cons (.time 0 10 (some 3)) (.cons (.time 0 10 none) .nil)))
        (.time 5 15 none) =
      some (.or (.cons (.time 0 5 none) .nil)) := by
  refine ⟨?_, rfl, rfl⟩
  intro bs other
  rw [xorOp, xorFold_append bs other .nil]
  rfl

theorem filterOkL_mem : ∀ {l : AttrList}, filterOkL l = true →
    ∀ {c : Attr}, AttrList.Mem c l → filterOk c = true
  | .cons x t, h, c, hm => by
    rw [filterOkL, Bool.and_eq_true] at h
    rcases hm with hm | hm
    · subst hm; exact h.1
    · exact filterOkL_mem h.2 hm

theorem predAllL_iff : ∀ (l : AttrList) (r : Record),
    predAllL l r = true ↔ ∀ c, AttrList.Mem c l → predOf c r = true
  | .nil, r => by
    rw [predAllL]
    simp [AttrList.Mem]
  | .cons x t, r => by
    rw [predAllL, Bool.and_eq_true, predAllL_iff t r]
    constructor
    · rintro ⟨h1, h2⟩ c (hc | hc)
      · subst hc; exact h1
      · exact h2 c hc
    · intro h
      exact ⟨h x (Or.inl rfl), fun c hc => h c (Or.inr hc)⟩

theorem predAnyL_iff : ∀ (l : AttrList) (r : Record),
    predAnyL l r = true ↔ ∃ c, AttrList.Mem c l ∧ predOf c r = true
  | .nil, r => by
    rw [predAnyL]
    simp [AttrList.Mem]
  | .cons x t, r => by
    rw [predAnyL, Bool.or_eq_true, predAnyL_iff t r]
    constructor
    · rintro (h | ⟨c, hc, hp⟩)
      · exact ⟨x, Or.inl rfl, h⟩
      · exact ⟨c, Or.inr hc, hp⟩
    · rintro ⟨c, hc | hc, hp⟩
      · subst hc; exact Or.inl hp
      · exact Or.inr ⟨c, hc, hp⟩

/-- C7: filtering a conjunction keeps exactly the candidates that every
child's filter keeps (each child filters the running intersection, so a
record of the candidate set survives iff it survives each child's filter
of the original set), and filtering a disjunction keeps exactly the
candidates kept by at least one child's filter of the original set. -/
theorem c7_filter_and_or_semantics (cs ds : AttrList) (S TA TO : Finset Record)
    (hA : filterResults (.and cs) S = some TA)
    (hO : filterResults (.or ds) S = some TO) :
    (∀ r, r ∈ TA ↔ r ∈ S ∧
      ∀ c, AttrList.Mem c cs → r ∈ (filterResults c S).getD ∅) ∧
    (∀ r, r ∈ TO ↔ ∃ d, AttrList.Mem d ds ∧ r ∈ (filterResults d S).getD ∅) := by
  rw [filterResults_eq (.and cs) S, filterOk] at hA
  rw [filterResults_eq (.or ds) S, filterOk] at hO
  cases hokA : filterOkL cs with
  | false => rw [hokA] at hA; simp at hA
  | true =>
  cases hokO : filterOkL ds with
  | false => rw [hokO] at hO; simp at hO
  | true =>
  rw [hokA] at hA
  rw [hokO] at hO
  simp only [if_true, Option.some.injEq] at hA hO
  constructor
  · intro r
    rw [← hA, Finset.mem_filter]
    have hpred : (predOf (.and cs) r = true) ↔ ∀ c, AttrList.Mem c cs → predOf c r = true := by
      rw [predOf]
      exact predAllL_iff cs r
    constructor
    · rintro ⟨hrS, hp⟩
      refine ⟨hrS, fun c hc => ?_⟩
      rw [filterResults_eq c S, filterOkL_mem hokA hc]
      simp only [if_true, Option.getD_some, Finset.mem_filter]
      exact ⟨hrS, hpred.mp hp c hc⟩
    · rintro ⟨hrS, hall⟩
      refine ⟨hrS, hpred.mpr fun c hc => ?_⟩
      have h2 := hall c hc
      rw [filterResults_eq c S, filterOkL_mem hokA hc] at h2
      simp only [if_true, Option.getD_some, Finset.mem_filter] at h2
      exact h2.2
  · intro r
    rw [← hO, Finset.mem_filter]
    have hpred : (predOf (.or ds) r = true) ↔ ∃ d, AttrList.Mem d ds ∧ predOf d r = true := by
      rw [predOf]
      exact predAnyL_iff ds r
    constructor
    · rintro ⟨hrS, hp⟩
      obtain ⟨d, hd, hpd⟩ := hpred.mp hp
      refine ⟨d, hd, ?_⟩
      rw [filterResults_eq d S, filterOkL_mem hokO hd]
      simp only [if_true, Option.getD_some, Finset.mem_filter]
      exact ⟨hrS, hpd⟩
    · rintro ⟨d, hd, hmem⟩
      rw [filterResults_eq d S, filterOkL_mem hokO hd] at hmem
      simp only [if_true, Option.getD_some, Finset.mem_filter] at hmem
      exact ⟨hmem.1, hpred.mpr ⟨d, hd, hmem.2⟩⟩

/-- A 100 Å record attributed to instrument AIA. -/
def recA : Record := ⟨[(.instrument, "AIA")], 100, 100, .angstrom, 0, 0, ""⟩

/-- A 200 Å record attributed to instrument AIA. -/
def recB : Record := ⟨[(.instrument, "AIA")], 200, 200, .angstrom, 0, 0, ""⟩

/-- A 300 Å record attributed to instrument HMI. -/
def recC : Record := ⟨[(.instrument, "HMI")], 300, 300, .angstrom, 0, 0, ""⟩

/-- C7 witness: filtering three records by
`AttrAnd(Instrument("AIA"), Wave(150, 250))` keeps exactly the 200 Å AIA
record, and by the corresponding `AttrOr` keeps the two records matching
at least one branch. -/
theorem c7_filter_and_or_semantics_witness :
    (∀ r, r ∈ ({recB} : Finset Record) ↔ r ∈ ({recA, recB, recC} : Finset Record) ∧
      ∀ c, AttrList.Mem c (.cons (.simple .instrument "AIA") (.cons (.wave 150 250) .nil)) →
        r ∈ (filterResults c {recA, recB, recC}).getD ∅) ∧
    (∀ r, r ∈ ({recA, recB} : Finset Record) ↔
      ∃ d, AttrList.Mem d (.cons (.simple .instrument "AIA") (.cons (.wave 150 250) .nil)) ∧
        r ∈ (filterResults d {recA, recB, recC}).getD ∅) :=
  c7_filter_and_or_semantics
    (.cons (.simple .instrument "AIA") (.cons (.wave 150 250) .nil))
    (.cons (.simple .instrument "AIA") (.cons (.wave 150 250) .nil))
    {recA, recB, recC} {recB} {recA, recB} (by decide) (by decide)

/-- C8: converting a `Wave` to its canonical `ValueAttr` and applying
that `ValueAttr` to a freshly created empty query block reproduces
exactly the conversion's compound-key/value pairs; in particular
`Wave(1, 2, 'nm')` stores the bounds 10 and 20 Angstrom (converted and
sorted so min ≤ max) under `(wave, wavemin)` and `(wave, wavemax)` and
the string `Angstrom` under `(wave, waveunit)`. -/
theorem c8_wave_roundtrip :
    (∀ m mx : ℚ, ∃ d B, convertAttr (.wave m mx) = some d ∧
      applyOp (.value d) qbEmpty = some B ∧ qbFlatten B = d) ∧
    mkWaveU 1 2 "nm" = some (.wave 10 20) ∧
    convertAttr (.wave 10 20) =
      some [(["wave", "wavemin"], .num 10), (["wave", "wavemax"], .num 20),
        (["wave", "waveunit"], .str "Angstrom")] := by
  refine ⟨fun m mx => ⟨_, _, rfl, rfl, rfl⟩, ?_, rfl⟩
  simp [mkWaveU, toAngstrom]
  norm_num

/-- Whether a create rule returned a list of blocks (the documented
contract) or a bare block. -/
def isListRet : CreateRet → Bool
  | .list _ => true
  | .single _ => false

theorem createOrL_values : ∀ ds : List VDict,
    createOrL (ofValues ds) = some (ds.map fun d => applyDict d qbEmpty)
  | [] => rfl
  | d :: t => by
    rw [ofValues, createOrL]
    show (match createOrL (ofValues t) with
      | none => none
      | some rest => some ([applyDict d qbEmpty] ++ rest)) = _
    rw [createOrL_values t]
    simp

/-- C10: the `ValueAttr`/`AttrAnd` create rule returns a one-element
list holding the populated block, and the `AttrOr` create rule returns
the concatenation of its children's created lists; but the `DummyAttr`
create rule returns the bare empty query block itself, not a one-element
list, contradicting the claimed (and spec-required) list-of-query-objects
contract. -/
theorem c10_create_rules :
    createOp .dummy = some (.single qbEmpty) ∧
    isListRet (.single qbEmpty) = false ∧
    (∀ d : VDict, createOp (.value d) = some (.list [applyDict d qbEmpty]) ∧
      isListRet (.list [applyDict d qbEmpty]) = true) ∧
    (∀ ds : List VDict, createOp (.or (ofValues ds)) =
      some (.list (ds.map fun d => applyDict d qbEmpty))) := by
  refine ⟨rfl, rfl, fun d => ⟨rfl, rfl⟩, ?_⟩
  intro ds
  rw [createOp, createOrL_values ds]
